import Mathlib

/-!
Verification of the session-lifecycle core of the `python_exec` MCP server
(`src/server.py`), shallowly embedded in Lean.

Modelling conventions:
* The in-memory table `_sessions : dict[str, tuple[float, float]]` (mapping a
  session id to `(last_used_at, created_at)`) is modelled as an association
  list `Registry`, in Python dict insertion order.  CPython dict assignment
  updates a present key in place (keeping its position) and appends an absent
  key at the end; `dictSet` mirrors this.  `dict.pop(k, None)` removes the
  (unique) entry for `k`; `dictPop` mirrors this.  Well-formedness (keys are
  duplicate-free, as for every real dict) is the predicate `keysNodup`,
  assumed by theorems that need it.
* Timestamps (`time.time()` floats) are modelled as integers `ℤ`: the code
  only ever subtracts and compares timestamps, so any linearly ordered
  abelian group represents them faithfully, and integer literals keep the
  concrete scenarios computable by the kernel.
* The Docker collaborator (`DockerInterpreter`) is external: its directory
  deletion may fail (raise), modelled by an oracle `removeFails : String →
  Bool` telling, per directory path, whether `interpreter.remove_dir` raises.
  Calls that the server wraps in `try/except Exception: pass` absorb that
  failure; `_create_session`'s eviction loop wraps it in `try/finally`,
  which re-raises, and the model records that in a `Bool` "raised" flag.
-/

instance {ε α : Type} [DecidableEq ε] [DecidableEq α] : DecidableEq (Except ε α) :=
  fun a b =>
  match a, b with
  | .ok x, .ok y =>
    if h : x = y then .isTrue (congrArg Except.ok h)
    else .isFalse (fun hc => h (Except.ok.inj hc))
  | .error x, .error y =>
    if h : x = y then .isTrue (congrArg Except.error h)
    else .isFalse (fun hc => h (Except.error.inj hc))
  | .ok _, .error _ => .isFalse (fun hc => Except.noConfusion hc)
  | .error _, .ok _ => .isFalse (fun hc => Except.noConfusion hc)

/-- `SESSION_BASE_DIR` from `server.py`. -/
def SESSION_BASE_DIR : String := "/workspace/sessions"

/-- `_session_path(session_id)`: the workspace directory of a session. -/
def sessionPath (sid : String) : String :=
  SESSION_BASE_DIR ++ "/" ++ sid

/-- The value stored in `_sessions[sid]`: the tuple `(last_used_at, created_at)`. -/
structure SessionInfo where
  lastUsed : ℤ
  createdAt : ℤ
deriving DecidableEq

/-- One entry of the session table. -/
abbrev Entry := String × SessionInfo

/-- The `_sessions` dict, as an association list in dict insertion order. -/
abbrev Registry := List Entry

/-- The keys of the table, in order. -/
def keys (r : Registry) : List String := r.map Prod.fst

/-- Well-formedness: a Python dict never holds a key twice. -/
def keysNodup (r : Registry) : Prop := (keys r).Nodup

instance (r : Registry) : Decidable (keysNodup r) := by
  unfold keysNodup; infer_instance

/-- Python `d[k] = v`: update in place if the key is present, else append. -/
def dictSet (r : Registry) (k : String) (v : SessionInfo) : Registry :=
  if k ∈ keys r then r.map (fun e => if e.1 = k then (k, v) else e)
  else r ++ [(k, v)]

/-- Python `d.pop(k, None)`: drop the entry for `k` if present. -/
def dictPop (r : Registry) (k : String) : Registry :=
  r.eraseP (fun e => e.1 == k)

/-- Python `d[k]` read (used by `_touch` to fetch `created_at`). -/
def lookupInfo (r : Registry) (k : String) : Option SessionInfo :=
  (r.find? (fun e => e.1 == k)).map Prod.snd

/-- The comparison used by `_create_session`'s `sorted(..., key=lambda kv: kv[1][0])`:
ascending `last_used_at`.  Python's `sorted` is a stable ascending sort by the
key; `List.insertionSort entLE` is a stable ascending sort for this total
preorder, so it computes the same list. -/
def entLE (a b : Entry) : Prop := a.2.lastUsed ≤ b.2.lastUsed

instance : DecidableRel entLE :=
  fun a b => (inferInstance : Decidable (a.2.lastUsed ≤ b.2.lastUsed))

instance : IsTotal Entry entLE := ⟨fun a b => le_total a.2.lastUsed b.2.lastUsed⟩

instance : IsTrans Entry entLE := ⟨fun _ _ _ hab hbc => le_trans hab hbc⟩

/-- `_touch(session_id)`: if the id is known, set `last_used_at := now`,
preserving `created_at`; otherwise do nothing.  (The best-effort write of the
`.last_used` marker into the container is an external side effect.) -/
def touch (r : Registry) (sid : String) (now : ℤ) : Registry :=
  match lookupInfo r sid with
  | some info => dictSet r sid ⟨now, info.createdAt⟩
  | none => r

/-- The eviction loop body of `_create_session`:
`for sid, _ in to_remove: try: interpreter.remove_dir(...) finally: _sessions.pop(sid, None)`.
The `finally` pops the entry even when `remove_dir` raises, but the raise then
propagates and aborts the loop; the returned flag records whether it raised. -/
def evictLoop (removeFails : String → Bool) : List Entry → Registry → Registry × Bool
  | [], r => (r, false)
  | e :: rest, r =>
    let popped := dictPop r e.1
    if removeFails (sessionPath e.1) then (popped, true)
    else evictLoop removeFails rest popped

/-- `_create_session()` with the fresh id `sid` drawn by `_new_session_id()`:
insert `(now, now)`, then, if the table exceeds `SESSION_MAX`, evict the
oldest-by-`last_used_at` entries (stable ascending sort, excess taken from the
front).  The flag records whether an exception escaped (only possible from
`remove_dir` in the eviction loop; `make_dir` is an external effect). -/
def createSession (removeFails : String → Bool) (maxSessions : Nat)
    (r : Registry) (sid : String) (now : ℤ) : Registry × Bool :=
  let r1 := dictSet r sid ⟨now, now⟩
  if maxSessions < r1.length then
    evictLoop removeFails ((List.insertionSort entLE r1).take (r1.length - maxSessions)) r1
  else (r1, false)

/-- `_remove_session(session_id)`: pop the entry, then best-effort delete the
directory; the deletion sits in `try/except Exception: pass`, so its failure
is absorbed and the function never raises (flag always `false`). -/
def removeSession (removeFails : String → Bool) (r : Registry) (sid : String) :
    Registry × Bool :=
  let popped := dictPop r sid
  let _ := removeFails (sessionPath sid)
  (popped, false)

/-- `_cleanup_expired()`: collect the ids with `now - last_used > SESSION_TTL_SECONDS`
under the lock, then `_remove_session` each.  `_remove_session` never raises,
so neither does the sweep (flag always `false`). -/
def cleanupExpired (removeFails : String → Bool) (ttl : ℤ) (r : Registry) (now : ℤ) :
    Registry × Bool :=
  let expired := (r.filter (fun e => decide (ttl < now - e.2.lastUsed))).map Prod.fst
  (expired.foldl (fun acc sid => (removeSession removeFails acc sid).1) r, false)

/-- The configuration the server reads once at startup, plus the two oracles
standing for the external container state: `removeFails` (whether
`interpreter.remove_dir` raises for a given path) and `lastUsedOf` (the result
of `_read_session_last_used`, i.e. the persisted `.last_used` marker or the
directory mtime, `none` when neither is readable). -/
structure Config where
  ttl : ℤ
  maxSessions : Nat
  removeFails : String → Bool
  lastUsedOf : String → Option ℤ

/-- The mutable per-process state of `server.py`: the `_sessions` dict, the
in-memory `_current_session_id`, and the content of the persisted marker file
`/workspace/sessions/.current` inside the container (`none` stands for a
missing marker or empty content, which `_load_persisted_current` treats
alike via `if not sid: return`). -/
structure ServerState where
  sessions : Registry
  currentSessionId : Option String
  markerFile : Option String
deriving DecidableEq

/-- `_set_current_session(sid)`: set the in-memory value and mirror it into the
marker file (writing the id, or deleting the marker when clearing). -/
def setCurrentSession (st : ServerState) (sid : Option String) : ServerState :=
  { st with currentSessionId := sid, markerFile := sid }

/-- `_load_persisted_current()`: read the marker; if empty, do nothing.  If the
named session's recovered last-used timestamp is older than the TTL, create a
fresh session (id `freshSid`) and set it current.  Otherwise re-register the
named session in the live table (`_sessions[sid] = (now, now)`) and adopt it
as current (the marker file already names it, so it is unchanged).  The flag
records an exception escaping (only from `_create_session`'s eviction). -/
def loadPersistedCurrent (cfg : Config) (freshSid : String) (st : ServerState)
    (now : ℤ) : ServerState × Bool :=
  match st.markerFile with
  | none => (st, false)
  | some sid =>
    let expired := match cfg.lastUsedOf sid with
      | some t => decide (cfg.ttl < now - t)
      | none => false
    if expired then
      let created := createSession cfg.removeFails cfg.maxSessions st.sessions freshSid now
      if created.2 then ({ st with sessions := created.1 }, true)
      else (setCurrentSession { st with sessions := created.1 } (some freshSid), false)
    else
      ({ st with sessions := dictSet st.sessions sid ⟨now, now⟩,
                 currentSessionId := some sid }, false)

/-- `_get_current_session()`: return the in-memory current id if set; else try
`_load_persisted_current()` (returning `None` when it raises) and re-read the
in-memory value. -/
def getCurrentSession (cfg : Config) (freshSid : String) (st : ServerState)
    (now : ℤ) : Option String × ServerState :=
  match st.currentSessionId with
  | some sid => (some sid, st)
  | none =>
    let loaded := loadPersistedCurrent cfg freshSid st now
    if loaded.2 then (none, loaded.1) else (loaded.1.currentSessionId, loaded.1)

/-- The create-and-promote arm of `_SessionContext.__enter__`:
`self.session_id = _create_session(); _set_current_session(self.session_id)`,
with `_create_session`'s exception propagating as an error. -/
def createAndPromote (cfg : Config) (freshSid : String) (st : ServerState)
    (now : ℤ) : Except String (String × Bool × ServerState) :=
  let created := createSession cfg.removeFails cfg.maxSessions st.sessions freshSid now
  if created.2 then .error "remove_dir failed during eviction"
  else .ok (freshSid, false, setCurrentSession { st with sessions := created.1 } (some freshSid))

/-- `_SessionContext.__enter__`: resolve a session according to the policy.
Returns `(session_id, owns, state)` on success; `owns` marks an ephemeral
session to be removed on exit.  The explicit-id branch is guarded by Python's
truthiness check `if self.user_session_id:`, which is false for both `None`
and the empty string — so `none` and `some ""` alike fall through to the
policy branches.  A truthy explicitly supplied id is used only if it is
already in `_sessions`, else `ValueError` — nothing is created for it.
Every successful resolution ends with `_touch(session_id)`. -/
def contextEnter (cfg : Config) (freshSid : String) (st : ServerState) (now : ℤ)
    (userSessionId : Option String) (useCurrentIfMissing ephemeralIfMissing : Bool) :
    Except String (String × Bool × ServerState) :=
  let policy : Except String (String × Bool × ServerState) :=
    if ephemeralIfMissing then
      let created := createSession cfg.removeFails cfg.maxSessions st.sessions freshSid now
      if created.2 then .error "remove_dir failed during eviction"
      else .ok (freshSid, true, { st with sessions := created.1 })
    else if useCurrentIfMissing then
      let got := getCurrentSession cfg freshSid st now
      match got.1 with
      | some cur =>
        if cur ∈ keys got.2.sessions then .ok (cur, false, got.2)
        else createAndPromote cfg freshSid got.2 now
      | none => createAndPromote cfg freshSid got.2 now
    else .error "session_id is required"
  let resolved : Except String (String × Bool × ServerState) :=
    match userSessionId with
    | some sid =>
      if sid = "" then policy
      else if sid ∈ keys st.sessions then .ok (sid, false, st)
      else .error "invalid session_id (use init() to create one)"
    | none => policy
  resolved.map (fun res => (res.1, res.2.1, { res.2.2 with sessions := touch res.2.2.sessions res.1 now }))

/-- `_SessionContext.__exit__`: an owned (ephemeral) session is removed
immediately; the enclosed operation's exception, if any, is not suppressed
(`__exit__` returns `False`). -/
def scopeExit (cfg : Config) (sid : String) (owns : Bool) (st : ServerState) : ServerState :=
  if owns then { st with sessions := (removeSession cfg.removeFails st.sessions sid).1 }
  else st

/-- Split a character list at every `/` (the split underlying
`PurePosixPath(path).parts` and `os.path.basename`). -/
def splitSegs : List Char → List (List Char)
  | [] => [[]]
  | c :: rest =>
    if c = '/' then [] :: splitSegs rest
    else
      match splitSegs rest with
      | [] => [[c]]
      | s :: ss => (c :: s) :: ss

/-- The segments `PurePosixPath(path).parts` contributes to the `..` scan:
splitting on `/` discards empty segments and `.` segments (the leading root
part `/` of an absolute path is never equal to `..`, so dropping it is
immaterial to the check). -/
def posixParts (path : String) : List String :=
  ((splitSegs path.toList).map List.asString).filter (fun s => decide (s ≠ "" ∧ s ≠ "."))

/-- `PurePosixPath(path).is_absolute()`: the path begins with `/`. -/
def isAbsolute (path : String) : Bool :=
  match path.toList with
  | [] => false
  | c :: _ => c = '/'

/-- `_ensure_relative_posix(path)`: reject an absolute path or any `..`
segment with `ValueError`, before any file is touched. -/
def ensureRelativePosix (path : String) : Except String Unit :=
  if isAbsolute path ∨ ".." ∈ posixParts path then
    .error "only relative paths without .. are allowed"
  else .ok ()

/-- `os.path.basename` for posix paths: the part after the last `/`. -/
def basename (p : String) : String :=
  ((splitSegs p.toList).getLastD []).asString

/-- A command the server hands to the collaborator to execute caller code.
Modelled from the spec: `run(path_or_code, workdir) -> (stdout, stderr,
exit_code)` "executes caller-supplied code/scripts with the working directory
fixed to the session's workspace".  The `DockerInterpreter` variant checked
into `src/docker_interpreter.py` predates the `workdir` parameter that
`server.py` and the repository's tests pass (`exec_code(code, workdir=...)`,
`exec_container_file(path, workdir=...)`); the workdir-honouring collaborator
is therefore modelled from the spec, recording the working directory it would
use. -/
structure ExecCall where
  target : String
  isFile : Bool
  cwd : String
deriving DecidableEq

/-- Modelled from the spec: `interpreter.exec_code(code, workdir=wd)` runs
`code` with working directory `wd`. -/
def execCode (code workdir : String) : ExecCall :=
  { target := code, isFile := false, cwd := workdir }

/-- Modelled from the spec: `interpreter.exec_container_file(path, workdir=wd)`
runs the script at `path` with working directory `wd`. -/
def execContainerFile (path workdir : String) : ExecCall :=
  { target := path, isFile := true, cwd := workdir }

/-- A file operation the server asks the collaborator to perform after path
validation succeeded; a tool that rejects the path never produces one. -/
inductive FileAction where
  | copyIn (hostSrc containerDst : String)
  | copyOut (containerSrc hostDst : String)
  | writeFile (containerPath content : String)
deriving DecidableEq

/-- The `run_code` tool: resolve a session with the reuse-current policy and
execute the code with the session workspace as working directory.  Returns
the resolved session id, the collaborator call, and the state after scope
exit. -/
def runCodeTool (cfg : Config) (freshSid : String) (st : ServerState) (now : ℤ)
    (code : String) : Except String (String × ExecCall × ServerState) :=
  (contextEnter cfg freshSid st now none true false).map
    (fun res => (res.1, execCode code (sessionPath res.1), scopeExit cfg res.1 res.2.1 res.2.2))

/-- The `run_code_ephemeral` tool: resolve with the ephemeral policy, execute,
and clean up on exit.  `opRaises` says whether the enclosed operation (the
collaborator call) raised; `__exit__` runs either way and does not suppress
the exception, so the flag is passed through to the caller. -/
def runCodeEphemeralTool (cfg : Config) (freshSid : String) (st : ServerState)
    (now : ℤ) (code : String) (opRaises : Bool) :
    Except String (String × ExecCall × ServerState × Bool) :=
  (contextEnter cfg freshSid st now none false true).map
    (fun res => (res.1, execCode code (sessionPath res.1),
                 scopeExit cfg res.1 res.2.1 res.2.2, opRaises))

/-- The `run_file` tool: validate the relative path first (before the session
context and before any file access), then execute
`{session dir}/{path}` with the session workspace as working directory. -/
def runFileTool (cfg : Config) (freshSid : String) (st : ServerState) (now : ℤ)
    (path : String) : Except String (String × ExecCall × ServerState) :=
  match ensureRelativePosix path with
  | .error e => .error e
  | .ok _ =>
    (contextEnter cfg freshSid st now none true false).map
      (fun res => (res.1, execContainerFile (sessionPath res.1 ++ "/" ++ path) (sessionPath res.1),
                   scopeExit cfg res.1 res.2.1 res.2.2))

/-- The `cp_in` tool: resolve the session, default the container path to the
basename of the host path when missing or empty, validate it, and only then
copy.  `containerPath = none` stands for Python `None`; `some ""` is likewise
falsy and defaults. -/
def cpInTool (cfg : Config) (freshSid : String) (st : ServerState) (now : ℤ)
    (localPath : String) (containerPath : Option String) :
    Except String (String × FileAction × ServerState) :=
  match contextEnter cfg freshSid st now none true false with
  | .error e => .error e
  | .ok res =>
    let cp := match containerPath with
      | none => basename localPath
      | some p => if p = "" then basename localPath else p
    match ensureRelativePosix cp with
    | .error e => .error e
    | .ok _ =>
      .ok (res.1, .copyIn localPath (sessionPath res.1 ++ "/" ++ cp),
           scopeExit cfg res.1 res.2.1 res.2.2)

/-- The `cp_out` tool: resolve the session, validate the container-relative
path, default the host path to its basename, and only then copy. -/
def cpOutTool (cfg : Config) (freshSid : String) (st : ServerState) (now : ℤ)
    (containerPath : String) (localPath : Option String) :
    Except String (String × FileAction × ServerState) :=
  match contextEnter cfg freshSid st now none true false with
  | .error e => .error e
  | .ok res =>
    match ensureRelativePosix containerPath with
    | .error e => .error e
    | .ok _ =>
      let lp := match localPath with
        | none => basename containerPath
        | some p => if p = "" then basename containerPath else p
      .ok (res.1, .copyOut (sessionPath res.1 ++ "/" ++ containerPath) lp,
           scopeExit cfg res.1 res.2.1 res.2.2)

/-- The `edit_file` tool: resolve the session, validate the container-relative
path, and only then write the file under the session workspace. -/
def editFileTool (cfg : Config) (freshSid : String) (st : ServerState) (now : ℤ)
    (containerPath content : String) :
    Except String (String × FileAction × ServerState) :=
  match contextEnter cfg freshSid st now none true false with
  | .error e => .error e
  | .ok res =>
    match ensureRelativePosix containerPath with
    | .error e => .error e
    | .ok _ =>
      .ok (res.1, .writeFile (sessionPath res.1 ++ "/" ++ containerPath) content,
           scopeExit cfg res.1 res.2.1 res.2.2)

/-- The registry after popping the key of each listed entry in order (the
cumulative effect of the `finally: _sessions.pop(sid, None)` clauses). -/
def popKeys (r : Registry) (ts : List Entry) : Registry :=
  ts.foldl (fun acc e => dictPop acc e.1) r

/-- The registry after popping each listed id in order (the cumulative effect
of `_remove_session` calls during a sweep). -/
def popKeysStr (r : Registry) (ks : List String) : Registry :=
  ks.foldl dictPop r

/-- The entries the eviction loop actually processes before returning: all of
them when no deletion fails, otherwise everything up to and including the
first entry whose directory deletion raises. -/
def processedEvictions (f : String → Bool) : List Entry → List Entry
  | [] => []
  | e :: rest =>
    if f (sessionPath e.1) then [e] else e :: processedEvictions f rest

lemma mem_keys_iff {r : Registry} {k : String} :
    k ∈ keys r ↔ ∃ e ∈ r, e.1 = k := by
  simp [keys, List.mem_map, eq_comm]

lemma keys_append (r s : Registry) : keys (r ++ s) = keys r ++ keys s := by
  simp [keys]

lemma keys_dictSet_of_mem {r : Registry} {k : String} (v : SessionInfo)
    (h : k ∈ keys r) : keys (dictSet r k v) = keys r := by
  unfold dictSet
  rw [if_pos h]
  unfold keys
  rw [List.map_map]
  apply List.map_congr_left
  intro e _
  by_cases he : e.1 = k
  · simp [Function.comp, he]
  · simp [Function.comp, he]

lemma dictSet_of_not_mem {r : Registry} {k : String} (v : SessionInfo)
    (h : k ∉ keys r) : dictSet r k v = r ++ [(k, v)] := by
  simp [dictSet, h]

lemma length_dictSet_of_mem {r : Registry} {k : String} (v : SessionInfo)
    (h : k ∈ keys r) : (dictSet r k v).length = r.length := by
  unfold dictSet
  rw [if_pos h]
  simp

lemma mem_keys_dictSet_self (r : Registry) (k : String) (v : SessionInfo) :
    k ∈ keys (dictSet r k v) := by
  by_cases h : k ∈ keys r
  · rw [keys_dictSet_of_mem v h]; exact h
  · rw [dictSet_of_not_mem v h, keys_append]; simp [keys]

lemma keysNodup_dictSet {r : Registry} {k : String} (v : SessionInfo)
    (h : keysNodup r) : keysNodup (dictSet r k v) := by
  by_cases hk : k ∈ keys r
  · unfold keysNodup; rw [keys_dictSet_of_mem v hk]; exact h
  · unfold keysNodup
    rw [dictSet_of_not_mem v hk, keys_append]
    have hsing : keys [(k, v)] = [k] := rfl
    rw [hsing]
    refine List.Nodup.append h (List.nodup_singleton k) ?_
    intro a ha hak
    rw [List.mem_singleton] at hak
    exact hk (hak ▸ ha)

lemma dictPop_sublist (r : Registry) (k : String) : List.Sublist (dictPop r k) r :=
  List.eraseP_sublist r

lemma keys_dictPop_sublist (r : Registry) (k : String) :
    List.Sublist (keys (dictPop r k)) (keys r) :=
  (dictPop_sublist r k).map Prod.fst

lemma keysNodup_dictPop {r : Registry} (k : String) (h : keysNodup r) :
    keysNodup (dictPop r k) :=
  List.Nodup.sublist (keys_dictPop_sublist r k) h

lemma mem_keys_dictPop {r : Registry} {sid k : String}
    (h : sid ∈ keys r) (hne : sid ≠ k) : sid ∈ keys (dictPop r k) := by
  obtain ⟨e, he, hek⟩ := mem_keys_iff.mp h
  refine mem_keys_iff.mpr ⟨e, ?_, hek⟩
  clear h
  induction r with
  | nil => cases he
  | cons a rest ih =>
    rcases List.mem_cons.mp he with rfl | hr
    · have ha : (e.1 == k) = false := by
        subst hek; simpa using hne
      simp [dictPop, List.eraseP_cons, ha]
    · by_cases ha : (a.1 == k) = true
      · simpa [dictPop, List.eraseP_cons, ha] using hr
      · have ha' : (a.1 == k) = false := by simpa using ha
        simp only [dictPop, List.eraseP_cons, ha', cond_false, List.mem_cons]
        exact Or.inr (by simpa [dictPop] using ih hr)

lemma not_mem_keys_dictPop_self {r : Registry} (k : String) (h : keysNodup r) :
    k ∉ keys (dictPop r k) := by
  induction r with
  | nil => simp [dictPop, keys]
  | cons e rest ih =>
    have hnd : e.1 ∉ keys rest ∧ keysNodup rest := by
      simpa [keysNodup, keys] using h
    by_cases hek : (e.1 == k) = true
    · have hk : e.1 = k := by simpa using hek
      simp only [dictPop, List.eraseP_cons, hek, cond_true]
      exact hk ▸ hnd.1
    · have hek' : (e.1 == k) = false := by simpa using hek
      simp only [dictPop, List.eraseP_cons, hek', cond_false, keys, List.map_cons,
        List.mem_cons]
      rintro (rfl | hmem)
      · simp at hek'
      · exact ih hnd.2 (by simpa [dictPop, keys] using hmem)

lemma length_dictPop_add_one_of_mem {r : Registry} {k : String}
    (h : k ∈ keys r) : (dictPop r k).length + 1 = r.length := by
  induction r with
  | nil => cases h
  | cons e rest ih =>
    by_cases hek : (e.1 == k) = true
    · simp [dictPop, List.eraseP_cons, hek]
    · have hek' : (e.1 == k) = false := by simpa using hek
      have hk' : k ∈ keys rest := by
        rcases mem_keys_iff.mp h with ⟨a, ha, hak⟩
        rcases List.mem_cons.mp ha with rfl | har
        · exact absurd (by simp [hak]) hek
        · exact mem_keys_iff.mpr ⟨a, har, hak⟩
      have hrec := ih hk'
      simp only [dictPop, List.eraseP_cons, hek', cond_false, List.length_cons]
      simp only [dictPop] at hrec
      omega

lemma length_dictPop_le (r : Registry) (k : String) :
    (dictPop r k).length ≤ r.length :=
  (dictPop_sublist r k).length_le

lemma key_inj {r : Registry} (h : keysNodup r) {e f : Entry}
    (he : e ∈ r) (hf : f ∈ r) (hk : e.1 = f.1) : e = f :=
  List.inj_on_of_nodup_map h he hf hk

lemma dictPop_eq_filter {r : Registry} (k : String) (h : keysNodup r) :
    dictPop r k = r.filter (fun e => decide (¬ e.1 = k)) := by
  induction r with
  | nil => rfl
  | cons e rest ih =>
    have hnd : e.1 ∉ keys rest ∧ keysNodup rest := by
      simpa [keysNodup, keys] using h
    by_cases hek : (e.1 == k) = true
    · have hk : e.1 = k := by simpa using hek
      simp only [dictPop, List.eraseP_cons, hek, cond_true]
      rw [List.filter_cons_of_neg (by simp [hk])]
      symm
      apply List.filter_eq_self.mpr
      intro a ha
      have hak : ¬ a.1 = k := fun hak => hnd.1 (hk ▸ hak ▸ mem_keys_iff.mpr ⟨a, ha, rfl⟩)
      simpa using hak
    · have hek' : (e.1 == k) = false := by simpa using hek
      simp only [dictPop, List.eraseP_cons, hek', cond_false]
      rw [List.filter_cons_of_pos (by simpa using hek)]
      rw [← ih hnd.2]
      rfl

lemma mem_keys_of_lookupInfo_some {r : Registry} {sid : String} {info : SessionInfo}
    (h : lookupInfo r sid = some info) : sid ∈ keys r := by
  unfold lookupInfo at h
  cases hf : List.find? (fun e => e.1 == sid) r with
  | none => rw [hf] at h; cases h
  | some e =>
    have he := List.mem_of_find?_eq_some hf
    have hp := List.find?_some hf
    exact mem_keys_iff.mpr ⟨e, he, by simpa using hp⟩

lemma keys_touch (r : Registry) (sid : String) (now : ℤ) :
    keys (touch r sid now) = keys r := by
  unfold touch
  cases hl : lookupInfo r sid with
  | none => rfl
  | some info => exact keys_dictSet_of_mem _ (mem_keys_of_lookupInfo_some hl)

lemma length_touch (r : Registry) (sid : String) (now : ℤ) :
    (touch r sid now).length = r.length := by
  unfold touch
  cases hl : lookupInfo r sid with
  | none => rfl
  | some info => exact length_dictSet_of_mem _ (mem_keys_of_lookupInfo_some hl)

lemma keysNodup_touch {r : Registry} (sid : String) (now : ℤ)
    (h : keysNodup r) : keysNodup (touch r sid now) := by
  unfold keysNodup
  rw [keys_touch]
  exact h

lemma orderedInsert_append_single (a e : Entry) (s : List Entry) (h : entLE a e) :
    (s ++ [e]).orderedInsert entLE a = s.orderedInsert entLE a ++ [e] := by
  induction s with
  | nil => simp [List.orderedInsert, h]
  | cons b s ih =>
    by_cases hb : entLE a b
    · simp [List.orderedInsert, hb]
    · simp [List.orderedInsert, hb, ih]

lemma insertionSort_append_max (l : List Entry) (e : Entry)
    (h : ∀ x ∈ l, entLE x e) :
    List.insertionSort entLE (l ++ [e]) = List.insertionSort entLE l ++ [e] := by
  induction l with
  | nil => simp [List.insertionSort]
  | cons a l ih =>
    show List.orderedInsert entLE a (List.insertionSort entLE (l ++ [e]))
        = List.orderedInsert entLE a (List.insertionSort entLE l) ++ [e]
    rw [ih (fun x hx => h x (List.mem_cons_of_mem _ hx))]
    exact orderedInsert_append_single a e _ (h a (List.mem_cons_self _ _))

lemma popKeys_nil (r : Registry) : popKeys r [] = r := rfl

lemma popKeys_cons (r : Registry) (e : Entry) (ts : List Entry) :
    popKeys r (e :: ts) = popKeys (dictPop r e.1) ts := rfl

lemma evictLoop_fst_eq (f : String → Bool) (ts : List Entry) (r : Registry) :
    (evictLoop f ts r).1 = popKeys r (processedEvictions f ts) := by
  induction ts generalizing r with
  | nil => rfl
  | cons e rest ih =>
    simp only [evictLoop, processedEvictions]
    by_cases hf : f (sessionPath e.1) = true
    · rw [if_pos hf, if_pos hf]
      rfl
    · rw [if_neg hf, if_neg hf, popKeys_cons]
      exact ih _

lemma evictLoop_snd_eq (f : String → Bool) (ts : List Entry) (r : Registry) :
    (evictLoop f ts r).2 = ts.any (fun e => f (sessionPath e.1)) := by
  induction ts generalizing r with
  | nil => rfl
  | cons e rest ih =>
    simp only [evictLoop, List.any_cons]
    by_cases hf : f (sessionPath e.1) = true
    · rw [if_pos hf, hf]
      rfl
    · have hf' : f (sessionPath e.1) = false := by simpa using hf
      rw [if_neg hf, hf', Bool.false_or]
      exact ih _

lemma processedEvictions_of_no_fail {f : String → Bool} {ts : List Entry}
    (h : ts.any (fun e => f (sessionPath e.1)) = false) :
    processedEvictions f ts = ts := by
  induction ts with
  | nil => rfl
  | cons e rest ih =>
    rw [List.any_cons, Bool.or_eq_false_iff] at h
    unfold processedEvictions
    rw [if_neg (by simp [h.1]), ih h.2]

lemma processedEvictions_sublist (f : String → Bool) (ts : List Entry) :
    List.Sublist (processedEvictions f ts) ts := by
  induction ts with
  | nil => simp [processedEvictions]
  | cons t rest ih =>
    unfold processedEvictions
    by_cases hf : f (sessionPath t.1) = true
    · rw [if_pos hf]
      exact List.Sublist.cons₂ t (List.nil_sublist rest)
    · rw [if_neg hf]
      exact List.Sublist.cons₂ t ih

lemma not_mem_keys_popKeys_of_not_mem {r : Registry} {ts : List Entry} {k : String}
    (h : k ∉ keys r) : k ∉ keys (popKeys r ts) := by
  induction ts generalizing r with
  | nil => exact h
  | cons e rest ih =>
    rw [popKeys_cons]
    exact ih (fun hm => h ((keys_dictPop_sublist r e.1).subset hm))

lemma not_mem_keys_popKeys_of_mem {ts : List Entry} {e : Entry} :
    ∀ {r : Registry}, keysNodup r → e ∈ ts → e.1 ∉ keys (popKeys r ts) := by
  induction ts with
  | nil => intro r _ he; cases he
  | cons t rest ih =>
    intro r hnd he
    rw [popKeys_cons]
    rcases List.mem_cons.mp he with rfl | hr
    · exact not_mem_keys_popKeys_of_not_mem (not_mem_keys_dictPop_self _ hnd)
    · exact ih (keysNodup_dictPop _ hnd) hr

lemma mem_keys_popKeys {ts : List Entry} {sid : String} :
    ∀ {r : Registry}, sid ∈ keys r → (∀ e ∈ ts, e.1 ≠ sid) →
    sid ∈ keys (popKeys r ts) := by
  induction ts with
  | nil => intro r h _; exact h
  | cons t rest ih =>
    intro r h hne
    rw [popKeys_cons]
    refine ih (mem_keys_dictPop h ?_) (fun e he => hne e (List.mem_cons_of_mem _ he))
    intro hs
    exact hne t (List.mem_cons_self _ _) hs.symm

lemma keysNodup_popKeys {ts : List Entry} :
    ∀ {r : Registry}, keysNodup r → keysNodup (popKeys r ts) := by
  induction ts with
  | nil => intro r h; exact h
  | cons t rest ih =>
    intro r h
    rw [popKeys_cons]
    exact ih (keysNodup_dictPop _ h)

lemma length_popKeys {ts : List Entry} :
    ∀ {r : Registry}, keysNodup r → (ts.map Prod.fst).Nodup →
    (∀ e ∈ ts, e.1 ∈ keys r) →
    (popKeys r ts).length + ts.length = r.length := by
  induction ts with
  | nil => intro r _ _ _; simp [popKeys]
  | cons t rest ih =>
    intro r hnd hts hmem
    rw [popKeys_cons]
    have htm : t.1 ∈ keys r := hmem t (List.mem_cons_self _ _)
    have h1 : (dictPop r t.1).length + 1 = r.length := length_dictPop_add_one_of_mem htm
    have hts2 : t.1 ∉ rest.map Prod.fst ∧ (rest.map Prod.fst).Nodup := by
      rw [List.map_cons, List.nodup_cons] at hts
      exact hts
    have hmem2 : ∀ e ∈ rest, e.1 ∈ keys (dictPop r t.1) := by
      intro e he
      refine mem_keys_dictPop (hmem e (List.mem_cons_of_mem _ he)) ?_
      intro hek
      exact hts2.1 (hek ▸ List.mem_map_of_mem Prod.fst he)
    have h2 := ih (keysNodup_dictPop _ hnd) hts2.2 hmem2
    simp only [List.length_cons]
    omega

lemma popKeys_eq_filter {ts : List Entry} :
    ∀ {r : Registry}, keysNodup r →
    popKeys r ts = r.filter (fun e => decide (e.1 ∉ ts.map Prod.fst)) := by
  induction ts with
  | nil =>
    intro r _
    rw [popKeys_nil]
    symm
    apply List.filter_eq_self.mpr
    intro a _
    simp
  | cons t rest ih =>
    intro r hnd
    rw [popKeys_cons, ih (keysNodup_dictPop _ hnd), dictPop_eq_filter _ hnd,
      List.filter_filter]
    apply List.filter_congr
    intro e _
    rw [Bool.and_comm, ← Bool.decide_and, decide_eq_decide]
    simp only [List.map_cons, List.mem_cons, not_or]

lemma popKeys_eq_filter_entries {ts : List Entry} {r : Registry} (hnd : keysNodup r)
    (hmem : ∀ e ∈ ts, e ∈ r) :
    popKeys r ts = r.filter (fun e => decide (e ∉ ts)) := by
  rw [popKeys_eq_filter hnd]
  apply List.filter_congr
  intro e he
  rw [decide_eq_decide]
  constructor
  · intro h1 h2
    exact h1 (List.mem_map_of_mem _ h2)
  · intro h2 h1
    obtain ⟨x, hx, hxe⟩ := List.mem_map.mp h1
    exact h2 ((key_inj hnd (hmem x hx) he hxe) ▸ hx)

lemma popKeysStr_nil (r : Registry) : popKeysStr r [] = r := rfl

lemma popKeysStr_cons (r : Registry) (k : String) (ks : List String) :
    popKeysStr r (k :: ks) = popKeysStr (dictPop r k) ks := rfl

lemma length_popKeysStr {ks : List String} :
    ∀ r : Registry, (popKeysStr r ks).length ≤ r.length := by
  induction ks with
  | nil => intro r; exact le_rfl
  | cons k ks ih =>
    intro r
    rw [popKeysStr_cons]
    exact le_trans (ih _) (length_dictPop_le r k)

lemma keysNodup_popKeysStr {ks : List String} :
    ∀ {r : Registry}, keysNodup r → keysNodup (popKeysStr r ks) := by
  induction ks with
  | nil => intro r h; exact h
  | cons k ks ih =>
    intro r h
    rw [popKeysStr_cons]
    exact ih (keysNodup_dictPop _ h)

lemma popKeysStr_eq_filter {ks : List String} :
    ∀ {r : Registry}, keysNodup r →
    popKeysStr r ks = r.filter (fun e => decide (e.1 ∉ ks)) := by
  induction ks with
  | nil =>
    intro r _
    rw [popKeysStr_nil]
    symm
    apply List.filter_eq_self.mpr
    intro a _
    simp
  | cons k ks ih =>
    intro r hnd
    rw [popKeysStr_cons, ih (keysNodup_dictPop _ hnd), dictPop_eq_filter _ hnd,
      List.filter_filter]
    apply List.filter_congr
    intro e _
    rw [Bool.and_comm, ← Bool.decide_and, decide_eq_decide]
    simp only [List.mem_cons, not_or]

lemma cleanupExpired_fst (f : String → Bool) (ttl : ℤ) (r : Registry) (now : ℤ) :
    (cleanupExpired f ttl r now).1 =
      popKeysStr r ((r.filter (fun e => decide (ttl < now - e.2.lastUsed))).map Prod.fst) :=
  rfl

lemma createSession_of_not_overflow {f : String → Bool} {maxS : Nat} {r : Registry}
    {sid : String} {now : ℤ} (h : ¬ maxS < (dictSet r sid ⟨now, now⟩).length) :
    createSession f maxS r sid now = (dictSet r sid ⟨now, now⟩, false) := by
  simp only [createSession]
  rw [if_neg h]

lemma createSession_of_overflow {f : String → Bool} {maxS : Nat} {r : Registry}
    {sid : String} {now : ℤ} (h : maxS < (dictSet r sid ⟨now, now⟩).length) :
    createSession f maxS r sid now =
      evictLoop f
        ((List.insertionSort entLE (dictSet r sid ⟨now, now⟩)).take
          ((dictSet r sid ⟨now, now⟩).length - maxS))
        (dictSet r sid ⟨now, now⟩) := by
  simp only [createSession]
  rw [if_pos h]

lemma keys_insertionSort_perm (r1 : Registry) :
    List.Perm (keys (List.insertionSort entLE r1)) (keys r1) :=
  (List.perm_insertionSort entLE r1).map Prod.fst

lemma toRemove_facts {r1 : Registry} (hnd : keysNodup r1) (k : Nat) :
    (((List.insertionSort entLE r1).take k).map Prod.fst).Nodup ∧
    (∀ e ∈ (List.insertionSort entLE r1).take k, e ∈ r1) := by
  constructor
  · have h1 : (keys (List.insertionSort entLE r1)).Nodup :=
      ((keys_insertionSort_perm r1).nodup_iff).mpr hnd
    have h2 : List.Sublist (((List.insertionSort entLE r1).take k).map Prod.fst)
        ((List.insertionSort entLE r1).map Prod.fst) :=
      (List.take_sublist _ _).map Prod.fst
    exact List.Nodup.sublist h2 h1
  · intro e he
    exact (List.mem_insertionSort entLE).mp (List.mem_of_mem_take he)

lemma createSession_overflow_no_raise {f : String → Bool} {maxS : Nat} {r : Registry}
    {sid : String} {now : ℤ} (hnd : keysNodup r)
    (hover : maxS < (dictSet r sid ⟨now, now⟩).length)
    (hok : (createSession f maxS r sid now).2 = false) :
    (createSession f maxS r sid now).1 =
      (dictSet r sid ⟨now, now⟩).filter
        (fun e => decide (e ∉ (List.insertionSort entLE (dictSet r sid ⟨now, now⟩)).take
          ((dictSet r sid ⟨now, now⟩).length - maxS))) ∧
    (createSession f maxS r sid now).1.length = maxS := by
  have hnd1 : keysNodup (dictSet r sid ⟨now, now⟩) := keysNodup_dictSet _ hnd
  rw [createSession_of_overflow hover] at hok ⊢
  set r1 := dictSet r sid ⟨now, now⟩ with hr1
  set ts := (List.insertionSort entLE r1).take (r1.length - maxS) with htsdef
  have hsnd := evictLoop_snd_eq f ts r1
  have hfacts := toRemove_facts hnd1 (r1.length - maxS)
  have hproc : processedEvictions f ts = ts :=
    processedEvictions_of_no_fail (hsnd.symm.trans hok)
  have hfst := evictLoop_fst_eq f ts r1
  rw [hproc] at hfst
  constructor
  · rw [hfst]
    exact popKeys_eq_filter_entries hnd1 hfacts.2
  · rw [hfst]
    have hlen := length_popKeys hnd1 hfacts.1
      (fun e he => mem_keys_iff.mpr ⟨e, hfacts.2 e he, rfl⟩)
    rw [← htsdef] at hlen
    have htslen : ts.length = r1.length - maxS := by
      rw [htsdef, List.length_take, List.length_insertionSort]
      omega
    omega

lemma createSession_length_le {f : String → Bool} {maxS : Nat} {r : Registry}
    {sid : String} {now : ℤ} (hnd : keysNodup r)
    (hok : (createSession f maxS r sid now).2 = false) :
    (createSession f maxS r sid now).1.length ≤ maxS := by
  by_cases hover : maxS < (dictSet r sid ⟨now, now⟩).length
  · exact le_of_eq (createSession_overflow_no_raise hnd hover hok).2
  · rw [createSession_of_not_overflow hover]
    simpa using le_of_not_lt hover

lemma createSession_evicts_oldest {f : String → Bool} {maxS : Nat} {r : Registry}
    {sid : String} {now : ℤ} (hnd : keysNodup r)
    (hover : maxS < (dictSet r sid ⟨now, now⟩).length)
    (hok : (createSession f maxS r sid now).2 = false) :
    ∀ x ∈ dictSet r sid ⟨now, now⟩, x ∉ (createSession f maxS r sid now).1 →
    ∀ y ∈ (createSession f maxS r sid now).1, x.2.lastUsed ≤ y.2.lastUsed := by
  intro x hx hxout y hy
  obtain ⟨hres, _⟩ := createSession_overflow_no_raise hnd hover hok
  set r1 := dictSet r sid ⟨now, now⟩ with hr1
  set k := r1.length - maxS with hk
  set sorted := List.insertionSort entLE r1 with hsorteddef
  have hxin : x ∈ sorted.take k := by
    by_contra hxtk
    exact hxout (hres ▸ List.mem_filter.mpr ⟨hx, by simpa using hxtk⟩)
  have hyr : y ∈ r1 ∧ y ∉ sorted.take k := by
    rw [hres] at hy
    have hm := List.mem_filter.mp hy
    exact ⟨hm.1, by simpa using hm.2⟩
  have hysort : y ∈ sorted := by
    rw [hsorteddef, List.mem_insertionSort]
    exact hyr.1
  have hysplit : y ∈ sorted.take k ++ sorted.drop k := by
    rw [List.take_append_drop]
    exact hysort
  have hydrop : y ∈ sorted.drop k := by
    rcases List.mem_append.mp hysplit with h | h
    · exact absurd h hyr.2
    · exact h
  have hsorted2 : List.Sorted entLE sorted := List.sorted_insertionSort entLE r1
  exact hsorted2.rel_of_mem_take_of_mem_drop hxin hydrop

lemma createSession_keeps_new (f : String → Bool) (maxS : Nat) (r : Registry)
    (sid : String) (now : ℤ) (hmax : 1 ≤ maxS) (hfresh : sid ∉ keys r)
    (hmono : ∀ e ∈ r, e.2.lastUsed ≤ now) :
    sid ∈ keys (createSession f maxS r sid now).1 := by
  have hr1 : dictSet r sid ⟨now, now⟩ = r ++ [(sid, ⟨now, now⟩)] :=
    dictSet_of_not_mem _ hfresh
  have hmemsid : sid ∈ keys (dictSet r sid ⟨now, now⟩) := mem_keys_dictSet_self r sid _
  by_cases hover : maxS < (dictSet r sid ⟨now, now⟩).length
  · rw [createSession_of_overflow hover, evictLoop_fst_eq]
    refine mem_keys_popKeys hmemsid ?_
    intro e he
    have hsort : List.insertionSort entLE (dictSet r sid ⟨now, now⟩)
        = List.insertionSort entLE r ++ [(sid, ⟨now, now⟩)] := by
      rw [hr1]
      exact insertionSort_append_max r _ (fun x hx => hmono x hx)
    have hlen1 : (dictSet r sid ⟨now, now⟩).length = r.length + 1 := by
      rw [hr1]
      simp
    have hkle : (dictSet r sid ⟨now, now⟩).length - maxS
        ≤ (List.insertionSort entLE r).length := by
      rw [List.length_insertionSort]
      omega
    have hets : e ∈ (List.insertionSort entLE (dictSet r sid ⟨now, now⟩)).take
        ((dictSet r sid ⟨now, now⟩).length - maxS) :=
      (processedEvictions_sublist _ _).subset he
    rw [hsort, List.take_append_of_le_length hkle] at hets
    have her : e ∈ r := (List.mem_insertionSort entLE).mp (List.mem_of_mem_take hets)
    intro hek
    exact hfresh (hek ▸ mem_keys_iff.mpr ⟨e, her, rfl⟩)
  · rw [createSession_of_not_overflow hover]
    exact hmemsid

lemma keysNodup_createSession {f : String → Bool} {maxS : Nat} {r : Registry}
    {sid : String} {now : ℤ} (hnd : keysNodup r) :
    keysNodup (createSession f maxS r sid now).1 := by
  by_cases hover : maxS < (dictSet r sid ⟨now, now⟩).length
  · rw [createSession_of_overflow hover, evictLoop_fst_eq]
    exact keysNodup_popKeys (keysNodup_dictSet _ hnd)
  · rw [createSession_of_not_overflow hover]
    exact keysNodup_dictSet _ hnd

lemma cleanupExpired_eq_filter {f : String → Bool} {ttl : ℤ} {r : Registry} {now : ℤ}
    (hnd : keysNodup r) :
    (cleanupExpired f ttl r now).1 =
      r.filter (fun e => decide (now - e.2.lastUsed ≤ ttl)) := by
  rw [cleanupExpired_fst, popKeysStr_eq_filter hnd]
  apply List.filter_congr
  intro e he
  rw [decide_eq_decide]
  constructor
  · intro h1
    by_contra hgt
    rw [not_le] at hgt
    exact h1 (List.mem_map_of_mem _ (List.mem_filter.mpr ⟨he, by simpa using hgt⟩))
  · intro hle h1
    obtain ⟨x, hx, hxe⟩ := List.mem_map.mp h1
    have hxr := List.mem_filter.mp hx
    have hxeq : x = e := key_inj hnd hxr.1 he hxe
    rw [hxeq] at hxr
    have hlt : ttl < now - e.2.lastUsed := by simpa using hxr.2
    exact absurd hle (not_le.mpr hlt)

lemma cleanupExpired_length_le (f : String → Bool) (ttl : ℤ) (r : Registry) (now : ℤ) :
    (cleanupExpired f ttl r now).1.length ≤ r.length := by
  rw [cleanupExpired_fst]
  exact length_popKeysStr r

lemma contextEnter_explicit (cfg : Config) (freshSid : String) (st : ServerState)
    (now : ℤ) (sid : String) (u e : Bool) (hne : sid ≠ "") :
    contextEnter cfg freshSid st now (some sid) u e =
      if sid ∈ keys st.sessions then
        .ok (sid, false, { st with sessions := touch st.sessions sid now })
      else .error "invalid session_id (use init() to create one)" := by
  simp only [contextEnter]
  rw [if_neg hne]
  by_cases h : sid ∈ keys st.sessions
  · rw [if_pos h, if_pos h]
    rfl
  · rw [if_neg h, if_neg h]
    rfl

lemma contextEnter_empty_sid (cfg : Config) (freshSid : String) (st : ServerState)
    (now : ℤ) (u e : Bool) :
    contextEnter cfg freshSid st now (some "") u e
      = contextEnter cfg freshSid st now none u e := rfl

lemma contextEnter_ephemeral (cfg : Config) (freshSid : String) (st : ServerState)
    (now : ℤ) :
    contextEnter cfg freshSid st now none false true =
      if (createSession cfg.removeFails cfg.maxSessions st.sessions freshSid now).2 then
        .error "remove_dir failed during eviction"
      else
        .ok (freshSid, true,
          { st with sessions := (touch
              (createSession cfg.removeFails cfg.maxSessions st.sessions freshSid now).1
              freshSid now) }) := by
  cases hc : (createSession cfg.removeFails cfg.maxSessions st.sessions freshSid now).2
  · simp [contextEnter, hc, Except.map]
  · simp [contextEnter, hc, Except.map]

lemma ensureRelativePosix_error {p : String}
    (h : isAbsolute p = true ∨ ".." ∈ posixParts p) :
    ensureRelativePosix p = .error "only relative paths without .. are allowed" := by
  unfold ensureRelativePosix
  rw [if_pos h]

lemma ensureRelativePosix_ok {p : String} (h1 : isAbsolute p = false)
    (h2 : ".." ∉ posixParts p) : ensureRelativePosix p = .ok () := by
  have hcond : ¬ (isAbsolute p = true ∨ ".." ∈ posixParts p) := by
    rintro (ha | hm)
    · rw [h1] at ha
      cases ha
    · exact h2 hm
  unfold ensureRelativePosix
  rw [if_neg hcond]

lemma ensureRelativePosix_ok_iff (p : String) :
    ensureRelativePosix p = .ok () ↔ (isAbsolute p = false ∧ ".." ∉ posixParts p) := by
  constructor
  · intro h
    by_cases h1 : isAbsolute p = true ∨ ".." ∈ posixParts p
    · rw [ensureRelativePosix_error h1] at h
      cases h
    · push_neg at h1
      exact ⟨by simpa using h1.1, h1.2⟩
  · intro h
    exact ensureRelativePosix_ok h.1 h.2

/-- C1: for every tool-level file operation (`run_file`, `cp_in`, `cp_out`,
`edit_file`), the sandbox-side relative-path check rejects any absolute path
and any path containing a `..` segment — the tool fails with the validation
error and never produces a file action — while a plain descendant path is
accepted and resolved under the session workspace, and the empty relative
path (the workspace root itself) is accepted. -/
theorem C1_relative_path_validation :
    (∀ p : String,
      ensureRelativePosix p = .ok () ↔ (isAbsolute p = false ∧ ".." ∉ posixParts p))
  ∧ (∀ (cfg : Config) (freshSid : String) (st : ServerState) (now : ℤ) (p : String),
      isAbsolute p = true ∨ ".." ∈ posixParts p →
      runFileTool cfg freshSid st now p
          = .error "only relative paths without .. are allowed"
      ∧ (∀ lp out, cpInTool cfg freshSid st now lp (some p) ≠ .ok out)
      ∧ (∀ lp out, cpOutTool cfg freshSid st now p lp ≠ .ok out)
      ∧ (∀ c out, editFileTool cfg freshSid st now p c ≠ .ok out))
  ∧ (∀ (cfg : Config) (freshSid : String) (st : ServerState) (now : ℤ) (p : String)
      (res : String × Bool × ServerState),
      isAbsolute p = false → ".." ∉ posixParts p →
      contextEnter cfg freshSid st now none true false = .ok res →
      runFileTool cfg freshSid st now p
        = .ok (res.1, execContainerFile (sessionPath res.1 ++ "/" ++ p) (sessionPath res.1),
               scopeExit cfg res.1 res.2.1 res.2.2))
  ∧ ensureRelativePosix "a/b/c" = .ok ()
  ∧ ensureRelativePosix "" = .ok ()
  ∧ ensureRelativePosix "../x" = .error "only relative paths without .. are allowed"
  ∧ ensureRelativePosix "/abs/path" = .error "only relative paths without .. are allowed"
  ∧ sessionPath "sid123" ++ "/" ++ "a/b/c" = "/workspace/sessions/sid123/a/b/c" := by
  refine ⟨fun p => ensureRelativePosix_ok_iff p, ?_, ?_,
    by decide, by decide, by decide, by decide, by decide⟩
  · intro cfg freshSid st now p habs
    have herr := ensureRelativePosix_error habs
    refine ⟨?_, ?_, ?_, ?_⟩
    · simp only [runFileTool, herr]
    · intro lp out hok
      have hpne : p ≠ "" := by
        rintro rfl
        rcases habs with ha | hm
        · exact absurd ha (by decide)
        · exact absurd hm (by decide)
      cases hce : contextEnter cfg freshSid st now none true false with
      | error e => simp [cpInTool, hce] at hok
      | ok res =>
        simp only [cpInTool, hce] at hok
        rw [if_neg hpne, herr] at hok
        simp at hok
    · intro lp out hok
      cases hce : contextEnter cfg freshSid st now none true false with
      | error e => simp [cpOutTool, hce] at hok
      | ok res =>
        simp only [cpOutTool, hce] at hok
        rw [herr] at hok
        simp at hok
    · intro c out hok
      cases hce : contextEnter cfg freshSid st now none true false with
      | error e => simp [editFileTool, hce] at hok
      | ok res =>
        simp only [editFileTool, hce] at hok
        rw [herr] at hok
        simp at hok
  · intro cfg freshSid st now p res h1 h2 hce
    simp only [runFileTool, ensureRelativePosix_ok h1 h2, hce, Except.map]

/-- Witness for C1: the traversal path `../x` is rejected by `run_file` at a
concrete configuration and state. -/
theorem C1_relative_path_validation_witness :
    runFileTool ⟨600, 32, fun _ => false, fun _ => none⟩ "f"
        ⟨[("s", ⟨0, 0⟩)], some "s", some "s"⟩ 1 "../x"
      = .error "only relative paths without .. are allowed" :=
  (C1_relative_path_validation.2.1 ⟨600, 32, fun _ => false, fun _ => none⟩ "f"
    ⟨[("s", ⟨0, 0⟩)], some "s", some "s"⟩ 1 "../x" (by decide)).1

/-- C2: every `run_code` and `run_file` invocation executes the caller's code
or script with the working directory fixed to the resolved session's workspace
directory (and `run_file` executes exactly `{workspace}/{path}`).  The
collaborator side honouring `workdir` is modelled from the spec (see
`ExecCall`): the `DockerInterpreter` variant in `src/` predates the `workdir`
parameter that `server.py` and the tests use. -/
theorem C2_run_uses_session_workdir :
    (∀ (cfg : Config) (freshSid : String) (st : ServerState) (now : ℤ) (code : String)
      (out : String × ExecCall × ServerState),
      runCodeTool cfg freshSid st now code = .ok out →
      out.2.1.cwd = sessionPath out.1 ∧ out.2.1.target = code ∧ out.2.1.isFile = false)
  ∧ (∀ (cfg : Config) (freshSid : String) (st : ServerState) (now : ℤ) (path : String)
      (out : String × ExecCall × ServerState),
      runFileTool cfg freshSid st now path = .ok out →
      out.2.1.cwd = sessionPath out.1
      ∧ out.2.1.target = sessionPath out.1 ++ "/" ++ path ∧ out.2.1.isFile = true) := by
  constructor
  · intro cfg freshSid st now code out h
    cases hce : contextEnter cfg freshSid st now none true false with
    | error e =>
      simp [runCodeTool, hce, Except.map] at h
    | ok res =>
      simp only [runCodeTool, hce, Except.map] at h
      obtain rfl : _ = out := Except.ok.inj h
      exact ⟨rfl, rfl, rfl⟩
  · intro cfg freshSid st now path out h
    cases hv : ensureRelativePosix path with
    | error e =>
      simp [runFileTool, hv] at h
    | ok u =>
      cases hce : contextEnter cfg freshSid st now none true false with
      | error e =>
        simp [runFileTool, hv, hce, Except.map] at h
      | ok res =>
        simp only [runFileTool, hv, hce, Except.map] at h
        obtain rfl : _ = out := Except.ok.inj h
        exact ⟨rfl, rfl, rfl⟩

/-- Witness for C2: a concrete `run_code` call resolves the current session
`s` and runs with its workspace as the working directory. -/
theorem C2_run_uses_session_workdir_witness :
    (⟨"print(1)", false, "/workspace/sessions/s"⟩ : ExecCall).cwd = sessionPath "s"
    ∧ (⟨"print(1)", false, "/workspace/sessions/s"⟩ : ExecCall).target = "print(1)"
    ∧ (⟨"print(1)", false, "/workspace/sessions/s"⟩ : ExecCall).isFile = false :=
  C2_run_uses_session_workdir.1 ⟨600, 32, fun _ => false, fun _ => none⟩ "f"
    ⟨[("s", ⟨0, 0⟩)], some "s", some "s"⟩ 1 "print(1)"
    ("s", ⟨"print(1)", false, "/workspace/sessions/s"⟩,
      ⟨[("s", ⟨1, 0⟩)], some "s", some "s"⟩) (by decide)

/-- C3 (amended): `|registry| ≤ SESSION_MAX` holds after `create` completes
without an exception (from any well-formed state, by synchronous LRU eviction,
never refusal), and is preserved by `touch`, `remove`, and the TTL sweep.
The current-session recovery path (`_load_persisted_current`) re-registers
the persisted session without enforcing the cap and can therefore leave
`SESSION_MAX + 1` entries until the next create (see the counterexample). -/
theorem C3_capacity_invariant_amended :
    (∀ (f : String → Bool) (maxS : Nat) (r : Registry) (sid : String) (now : ℤ),
      keysNodup r → (createSession f maxS r sid now).2 = false →
      (createSession f maxS r sid now).1.length ≤ maxS)
  ∧ (∀ (r : Registry) (sid : String) (now : ℤ) (maxS : Nat),
      r.length ≤ maxS → (touch r sid now).length ≤ maxS)
  ∧ (∀ (f : String → Bool) (r : Registry) (sid : String) (maxS : Nat),
      r.length ≤ maxS → (removeSession f r sid).1.length ≤ maxS)
  ∧ (∀ (f : String → Bool) (ttl : ℤ) (r : Registry) (now : ℤ) (maxS : Nat),
      r.length ≤ maxS → (cleanupExpired f ttl r now).1.length ≤ maxS) := by
  refine ⟨?_, ?_, ?_, ?_⟩
  · intro f maxS r sid now hnd hok
    exact createSession_length_le hnd hok
  · intro r sid now maxS h
    rw [length_touch]
    exact h
  · intro f r sid maxS h
    exact le_trans (length_dictPop_le r sid) h
  · intro f ttl r now maxS h
    exact le_trans (cleanupExpired_length_le f ttl r now) h

/-- Counterexample for C3: with `SESSION_MAX = 1` and a full registry, the
recovery path re-registers the persisted session `b` and leaves two entries —
the claim that the bound holds after every registry-mutating operation,
recovery included, is false on the code. -/
theorem C3_capacity_invariant_counterexample :
    ¬ ((loadPersistedCurrent ⟨600, 1, fun _ => false, fun _ => some 990⟩ "f"
        ⟨[("a", ⟨0, 0⟩)], none, some "b"⟩ 1000).1.sessions.length
      ≤ (⟨600, 1, fun _ => false, fun _ => some 990⟩ : Config).maxSessions) := by
  decide

/-- Witness for C3 (amended): the create clause at a concrete overfull state. -/
theorem C3_capacity_invariant_witness :
    (createSession (fun _ => false) 1 [("a", ⟨0, 0⟩)] "b" 1).1.length ≤ 1 :=
  C3_capacity_invariant_amended.1 (fun _ => false) 1 [("a", ⟨0, 0⟩)] "b" 1
    (by decide) (by decide)

/-- C4: when `create` finds the registry above `SESSION_MAX` (and its eviction
completes without an exception), it removes exactly the excess count and every
evicted record's `last_used_at` is at most every survivor's; in the concrete
scenario with `SESSION_MAX = 2` — create `A`, create `B`, touch `A`, create
`C` — the registry ends as `{A, C}` with `B` evicted. -/
theorem C4_lru_eviction :
    (∀ (f : String → Bool) (maxS : Nat) (r : Registry) (sid : String) (now : ℤ),
      keysNodup r → (createSession f maxS r sid now).2 = false →
      maxS < (dictSet r sid ⟨now, now⟩).length →
      (createSession f maxS r sid now).1.length = maxS
      ∧ (∀ x ∈ dictSet r sid ⟨now, now⟩, x ∉ (createSession f maxS r sid now).1 →
         ∀ y ∈ (createSession f maxS r sid now).1, x.2.lastUsed ≤ y.2.lastUsed))
  ∧ keys (createSession (fun _ => false) 2
      (touch (createSession (fun _ => false) 2
        (createSession (fun _ => false) 2 [] "A" 1).1 "B" 2).1 "A" 3) "C" 4).1
      = ["A", "C"] := by
  constructor
  · intro f maxS r sid now hnd hok hover
    exact ⟨(createSession_overflow_no_raise hnd hover hok).2,
      createSession_evicts_oldest hnd hover hok⟩
  · decide

/-- Witness for C4: the eviction count clause at a concrete overfull state. -/
theorem C4_lru_eviction_witness :
    (createSession (fun _ => false) 1 [("a", ⟨0, 0⟩), ("b", ⟨2, 2⟩)] "c" 3).1.length = 1 :=
  (C4_lru_eviction.1 (fun _ => false) 1 [("a", ⟨0, 0⟩), ("b", ⟨2, 2⟩)] "c" 3
    (by decide) (by decide) (by decide)).1

/-- C5: the TTL sweep removes exactly the sessions with
`now - last_used_at > ttl` and keeps exactly those with `now - last_used_at ≤
ttl`; with TTL 600 a session last touched at `t = 500` survives a sweep at
`t = 1050` and is removed by a sweep at `t = 1150`. -/
theorem C5_sweep_exact :
    (∀ (f : String → Bool) (ttl : ℤ) (r : Registry) (now : ℤ),
      keysNodup r →
      (cleanupExpired f ttl r now).1
          = r.filter (fun e => decide (now - e.2.lastUsed ≤ ttl))
      ∧ (∀ sid : String, sid ∈ keys (cleanupExpired f ttl r now).1 ↔
          ∃ e ∈ r, e.1 = sid ∧ now - e.2.lastUsed ≤ ttl))
  ∧ keys (cleanupExpired (fun _ => false) 600
      (touch (createSession (fun _ => false) 32 [] "S" 0).1 "S" 500) 1050).1 = ["S"]
  ∧ keys (cleanupExpired (fun _ => false) 600
      (touch (createSession (fun _ => false) 32 [] "S" 0).1 "S" 500) 1150).1 = [] := by
  refine ⟨?_, by decide, by decide⟩
  intro f ttl r now hnd
  refine ⟨cleanupExpired_eq_filter hnd, ?_⟩
  intro sid
  rw [cleanupExpired_eq_filter hnd]
  constructor
  · intro h
    obtain ⟨e, he, hek⟩ := mem_keys_iff.mp h
    have hm := List.mem_filter.mp he
    exact ⟨e, hm.1, hek, by simpa using hm.2⟩
  · rintro ⟨e, he, hek, hle⟩
    exact mem_keys_iff.mpr ⟨e, List.mem_filter.mpr ⟨he, by simpa using hle⟩, hek⟩

/-- Witness for C5: the exactness clause at a concrete two-entry registry. -/
theorem C5_sweep_exact_witness :
    (cleanupExpired (fun _ => false) 600 [("S", ⟨500, 0⟩), ("T", ⟨100, 0⟩)] 1050).1
      = [("S", ⟨500, 0⟩)] :=
  ((C5_sweep_exact.1 (fun _ => false) 600 [("S", ⟨500, 0⟩), ("T", ⟨100, 0⟩)] 1050
    (by decide)).1).trans (by decide)

/-- C6: a session acquired through the ephemeral scope (`run_code_ephemeral`)
is absent from the registry after the scope exits, on every exit path —
whether the enclosed operation returned normally (`opRaises = false`) or
raised (`opRaises = true`, re-raised to the caller after cleanup). -/
theorem C6_ephemeral_removed_on_exit :
    ∀ (cfg : Config) (freshSid : String) (st : ServerState) (now : ℤ) (code : String)
      (opRaises : Bool) (out : String × ExecCall × ServerState × Bool),
      keysNodup st.sessions →
      runCodeEphemeralTool cfg freshSid st now code opRaises = .ok out →
      out.1 = freshSid ∧ freshSid ∉ keys out.2.2.1.sessions ∧ out.2.2.2 = opRaises := by
  intro cfg freshSid st now code opRaises out hnd h
  simp only [runCodeEphemeralTool, contextEnter_ephemeral] at h
  cases hc : (createSession cfg.removeFails cfg.maxSessions st.sessions freshSid now).2
  · rw [hc] at h
    simp only [Bool.false_eq_true, if_false, Except.map] at h
    obtain rfl : _ = out := Except.ok.inj h
    refine ⟨rfl, ?_, rfl⟩
    show freshSid ∉ keys (dictPop (touch
      (createSession cfg.removeFails cfg.maxSessions st.sessions freshSid now).1
      freshSid now) freshSid)
    exact not_mem_keys_dictPop_self freshSid
      (keysNodup_touch _ _ (keysNodup_createSession hnd))
  · rw [hc] at h
    simp [Except.map] at h

/-- Witness for C6: a concrete ephemeral run (with the enclosed operation
raising) leaves the fresh session absent from the registry. -/
theorem C6_ephemeral_removed_on_exit_witness :
    ("f" : String) = "f" ∧ "f" ∉ keys ([] : Registry) ∧ (true : Bool) = true :=
  C6_ephemeral_removed_on_exit ⟨600, 32, fun _ => false, fun _ => none⟩ "f"
    ⟨[], none, none⟩ 1 "x" true
    ("f", ⟨"x", false, "/workspace/sessions/f"⟩, ⟨[], none, none⟩, true)
    (by decide) (by decide)

/-- Counterexample for C7: the empty string is an explicitly supplied id that
is not in the registry, yet resolution does not fail with the unknown-session
error — `if self.user_session_id:` is false for `""`, so it falls through to
the reuse-current policy and resolves the current session `s`. -/
theorem C7_explicit_session_resolution_counterexample :
    ("" ∉ keys ([("s", (⟨0, 0⟩ : SessionInfo))] : Registry))
    ∧ contextEnter ⟨600, 32, fun _ => false, fun _ => none⟩ "f"
        ⟨[("s", ⟨0, 0⟩)], some "s", some "s"⟩ 1 (some "") true false
      = .ok ("s", false, ⟨[("s", ⟨1, 0⟩)], some "s", some "s"⟩) := by
  decide

/-- C7 (amended): an explicitly supplied non-empty session id is used only if
it is already in the registry (with only its `last_used_at` refreshed — the
key set is unchanged), and an unknown non-empty id fails with the
unknown-session error, nothing being created for it; the empty string is
falsy in Python's `if self.user_session_id:` check, so it is treated exactly
as if no id was supplied and resolution falls through to the calling
operation's policy. -/
theorem C7_explicit_session_resolution_amended :
    (∀ (cfg : Config) (freshSid : String) (st : ServerState) (now : ℤ) (sid : String)
      (u e : Bool), sid ≠ "" →
      (sid ∈ keys st.sessions →
        contextEnter cfg freshSid st now (some sid) u e
          = .ok (sid, false, { st with sessions := touch st.sessions sid now })
        ∧ keys (touch st.sessions sid now) = keys st.sessions)
      ∧ (sid ∉ keys st.sessions →
        contextEnter cfg freshSid st now (some sid) u e
          = .error "invalid session_id (use init() to create one)"))
  ∧ (∀ (cfg : Config) (freshSid : String) (st : ServerState) (now : ℤ) (u e : Bool),
      contextEnter cfg freshSid st now (some "") u e
        = contextEnter cfg freshSid st now none u e) := by
  constructor
  · intro cfg freshSid st now sid u e hne
    constructor
    · intro h
      rw [contextEnter_explicit cfg freshSid st now sid u e hne, if_pos h]
      exact ⟨rfl, keys_touch _ _ _⟩
    · intro h
      rw [contextEnter_explicit cfg freshSid st now sid u e hne, if_neg h]
  · intro cfg freshSid st now u e
    exact contextEnter_empty_sid cfg freshSid st now u e

/-- Witness for C7 (amended): the known id `s` resolves and the unknown id
`zzz` is rejected, at a concrete state. -/
theorem C7_explicit_session_resolution_witness :
    (contextEnter ⟨600, 32, fun _ => false, fun _ => none⟩ "f"
        ⟨[("s", ⟨0, 0⟩)], some "s", some "s"⟩ 1 (some "s") true false
      = .ok ("s", false, ⟨[("s", ⟨1, 0⟩)], some "s", some "s"⟩))
    ∧ (contextEnter ⟨600, 32, fun _ => false, fun _ => none⟩ "f"
        ⟨[("s", ⟨0, 0⟩)], some "s", some "s"⟩ 1 (some "zzz") true false
      = .error "invalid session_id (use init() to create one)") :=
  ⟨((C7_explicit_session_resolution_amended.1 ⟨600, 32, fun _ => false, fun _ => none⟩
      "f" ⟨[("s", ⟨0, 0⟩)], some "s", some "s"⟩ 1 "s" true false (by decide)).1
      (by decide)).1,
   (C7_explicit_session_resolution_amended.1 ⟨600, 32, fun _ => false, fun _ => none⟩
      "f" ⟨[("s", ⟨0, 0⟩)], some "s", some "s"⟩ 1 "zzz" true false (by decide)).2
      (by decide)⟩

/-- C8 (amended): `set_current(S)` then `get_current()` in the same process
returns `S`; after a restart (in-memory current unset, marker intact) with the
recovered last-used timestamp within the TTL, `get_current()` re-registers `S`
and returns `S`; and when that timestamp is older than the TTL, the code does
not fall through to unset — it creates a fresh session, registers it (the
fresh random id being unused and `SESSION_MAX ≥ 1`, it survives the capacity
check), adopts it as current, and overwrites the marker with the fresh id
(see the counterexample against the discard-and-unset reading). -/
theorem C8_current_session_recovery_amended :
    (∀ (cfg : Config) (freshSid : String) (st : ServerState) (now : ℤ) (S : String),
      (getCurrentSession cfg freshSid (setCurrentSession st (some S)) now).1 = some S)
  ∧ (∀ (cfg : Config) (freshSid : String) (st : ServerState) (now : ℤ) (S : String)
      (t : ℤ),
      st.currentSessionId = none → st.markerFile = some S →
      cfg.lastUsedOf S = some t → now - t ≤ cfg.ttl →
      (getCurrentSession cfg freshSid st now).1 = some S
      ∧ S ∈ keys (getCurrentSession cfg freshSid st now).2.sessions)
  ∧ (∀ (cfg : Config) (freshSid : String) (st : ServerState) (now : ℤ) (S : String)
      (t : ℤ),
      st.currentSessionId = none → st.markerFile = some S →
      cfg.lastUsedOf S = some t → cfg.ttl < now - t →
      (createSession cfg.removeFails cfg.maxSessions st.sessions freshSid now).2 = false →
      1 ≤ cfg.maxSessions → freshSid ∉ keys st.sessions →
      (∀ entry ∈ st.sessions, entry.2.lastUsed ≤ now) →
      (getCurrentSession cfg freshSid st now).1 = some freshSid
      ∧ (getCurrentSession cfg freshSid st now).2.currentSessionId = some freshSid
      ∧ (getCurrentSession cfg freshSid st now).2.markerFile = some freshSid
      ∧ freshSid ∈ keys (getCurrentSession cfg freshSid st now).2.sessions) := by
  refine ⟨?_, ?_, ?_⟩
  · intro cfg freshSid st now S
    rfl
  · intro cfg freshSid st now S t h1 h2 h3 h4
    have hexp2 : decide (cfg.ttl < now - t) = false := by
      simpa using not_lt.mpr h4
    simp only [getCurrentSession, h1, loadPersistedCurrent, h2, h3, hexp2,
      Bool.false_eq_true, if_false]
    exact ⟨trivial, mem_keys_dictSet_self _ _ _⟩
  · intro cfg freshSid st now S t h1 h2 h3 h4 hok hmax hfresh hmono
    have hexp2 : decide (cfg.ttl < now - t) = true := by simpa using h4
    simp only [getCurrentSession, h1, loadPersistedCurrent, h2, h3, hexp2, if_true, hok,
      Bool.false_eq_true, if_false, setCurrentSession]
    exact ⟨trivial, trivial, trivial,
      createSession_keeps_new cfg.removeFails cfg.maxSessions st.sessions freshSid now
        hmax hfresh hmono⟩

/-- Counterexample for C8: with TTL 600, a marker naming `S` whose recovered
timestamp is 0, and a read at `now = 1000`, `get_current()` neither discards
the marker nor falls through to unset: it returns the fresh session `f` and
the marker now names `f`. -/
theorem C8_current_session_recovery_counterexample :
    (getCurrentSession ⟨600, 32, fun _ => false, fun _ => some 0⟩ "f"
        ⟨[], none, some "S"⟩ 1000).1 = some "f"
    ∧ (getCurrentSession ⟨600, 32, fun _ => false, fun _ => some 0⟩ "f"
        ⟨[], none, some "S"⟩ 1000).2.markerFile = some "f" := by
  decide

/-- Witness for C8 (amended): the within-TTL recovery clause at a concrete
restart state. -/
theorem C8_current_session_recovery_witness :
    (getCurrentSession ⟨600, 32, fun _ => false, fun _ => some 500⟩ "f"
        ⟨[], none, some "S"⟩ 1000).1 = some "S"
    ∧ "S" ∈ keys (getCurrentSession ⟨600, 32, fun _ => false, fun _ => some 500⟩ "f"
        ⟨[], none, some "S"⟩ 1000).2.sessions :=
  C8_current_session_recovery_amended.2.1 ⟨600, 32, fun _ => false, fun _ => some 500⟩
    "f" ⟨[], none, some "S"⟩ 1000 "S" 500 rfl rfl rfl (by decide)

/-- C9 (amended): on explicit session close and on the TTL sweep, a failing
directory deletion is absorbed — the registry entry is still removed and no
exception reaches the caller.  On capacity eviction inside `create`, every
entry the loop processes (up to and including the one whose deletion fails)
is removed from the registry, but the failure is re-raised by the
`try/finally` and propagates to `create`'s caller exactly when some evicted
entry's deletion fails (see the counterexample). -/
theorem C9_cleanup_failure_amended :
    (∀ (f : String → Bool) (r : Registry) (sid : String),
      (removeSession f r sid).2 = false)
  ∧ (∀ (f : String → Bool) (r : Registry) (sid : String),
      keysNodup r → sid ∉ keys (removeSession f r sid).1)
  ∧ (∀ (f : String → Bool) (ttl : ℤ) (r : Registry) (now : ℤ),
      (cleanupExpired f ttl r now).2 = false)
  ∧ (∀ (f : String → Bool) (maxS : Nat) (r : Registry) (sid : String) (now : ℤ),
      maxS < (dictSet r sid ⟨now, now⟩).length →
      (createSession f maxS r sid now).2
        = ((List.insertionSort entLE (dictSet r sid ⟨now, now⟩)).take
            ((dictSet r sid ⟨now, now⟩).length - maxS)).any
            (fun e => f (sessionPath e.1)))
  ∧ (∀ (f : String → Bool) (maxS : Nat) (r : Registry) (sid : String) (now : ℤ),
      keysNodup r → maxS < (dictSet r sid ⟨now, now⟩).length →
      ∀ e ∈ processedEvictions f
          ((List.insertionSort entLE (dictSet r sid ⟨now, now⟩)).take
            ((dictSet r sid ⟨now, now⟩).length - maxS)),
        e.1 ∉ keys (createSession f maxS r sid now).1) := by
  refine ⟨?_, ?_, ?_, ?_, ?_⟩
  · intro f r sid
    rfl
  · intro f r sid hnd
    exact not_mem_keys_dictPop_self sid hnd
  · intro f ttl r now
    rfl
  · intro f maxS r sid now hover
    rw [createSession_of_overflow hover, evictLoop_snd_eq]
  · intro f maxS r sid now hnd hover e he
    rw [createSession_of_overflow hover, evictLoop_fst_eq]
    exact not_mem_keys_popKeys_of_mem (keysNodup_dictSet _ hnd) he

/-- Counterexample for C9: when the evicted session `a`'s directory deletion
fails during `create`, the exception escapes `_create_session` (flag `true`),
so the claim that no exception propagates on the eviction path is false — even
though the entry was still removed. -/
theorem C9_cleanup_failure_counterexample :
    (createSession (fun _ => true) 1 [("a", ⟨0, 0⟩)] "b" 1).2 = true
    ∧ keys (createSession (fun _ => true) 1 [("a", ⟨0, 0⟩)] "b" 1).1 = ["b"] := by
  decide

/-- Witness for C9 (amended): the close-path removal clause at a concrete
registry whose directory deletion fails. -/
theorem C9_cleanup_failure_witness :
    "a" ∉ keys (removeSession (fun _ => true) [("a", ⟨0, 0⟩)] "a").1 :=
  C9_cleanup_failure_amended.2.1 (fun _ => true) [("a", ⟨0, 0⟩)] "a" (by decide)

/-- C10: whenever `SESSION_MAX ≥ 1`, the id returned by `create` is still in
the registry when `create` finishes: the new record is fresh, carries the
maximal `last_used_at`, and (by stability of the sort over the dict insertion
order) sorts after every earlier record, so the synchronous eviction — which
takes only the excess from the front of the ascending sort — never selects
it. -/
theorem C10_new_session_survives_creation :
    ∀ (f : String → Bool) (maxS : Nat) (r : Registry) (sid : String) (now : ℤ),
      1 ≤ maxS → sid ∉ keys r → (∀ e ∈ r, e.2.lastUsed ≤ now) →
      sid ∈ keys (createSession f maxS r sid now).1 := by
  intro f maxS r sid now hmax hfresh hmono
  exact createSession_keeps_new f maxS r sid now hmax hfresh hmono

/-- Witness for C10: creating `b` into a full one-slot registry evicts
`a` and keeps `b`. -/
theorem C10_new_session_survives_creation_witness :
    "b" ∈ keys (createSession (fun _ => false) 1 [("a", ⟨0, 0⟩)] "b" 1).1 :=
  C10_new_session_survives_creation (fun _ => false) 1 [("a", ⟨0, 0⟩)] "b" 1
    (by decide) (by decide) (by decide)
